import Mathlib

/-!
Verification of the takao approximate-nearest-neighbor matching core: a shallow
embedding of `backend/src/services/tuner.ts` and `backend/src/data/seedUsers.ts`,
together with spec-modelled definitions for the vector-store module those files
import.  JavaScript floating-point numbers are modelled as exact rationals, and
similarity values (which involve square roots) as real numbers.  Ambient effects
(wall-clock timing, `Math.random` sampling) are passed in as explicit oracles.
-/

/-- Errors of the vector-store module, following the spec's error taxonomy
(section 7): a dimension mismatch at the boundary and a query against an index
with zero nodes. -/
inductive VectorStoreError where
  | dimensionMismatch
  | emptyIndex
  deriving DecidableEq

/-- Dot product of two rational vectors; `zipWith` truncates at the shorter
list, exactly as a coordinatewise loop over the common prefix would. -/
def dotQ (a b : List ℚ) : ℚ :=
  (List.zipWith (fun x y => x * y) a b).sum

/-- Modelled from the spec: `backend/src/services/vectorStore.ts` is not under
`src/`, only its callers are.  The value of the cosine similarity
`dot(a,b) / (numA * numB)` where the two norms are square roots of the
self-dot-products, with the spec's defined edge case: 0 when either vector has
zero magnitude (spec 4.1). -/
noncomputable def cosineSimVal (a b : List ℚ) : ℝ :=
  if dotQ a a = 0 ∨ dotQ b b = 0 then 0
  else ((dotQ a b : ℚ) : ℝ) /
    (Real.sqrt ((dotQ a a : ℚ) : ℝ) * Real.sqrt ((dotQ b b : ℚ) : ℝ))

/-- Modelled from the spec: `cosineSimilarity(a, b)` of the missing
`vectorStore.ts` (spec 4.1).  Inputs must have equal length, failing with
`DimensionMismatch` otherwise. -/
noncomputable def cosineSimilarity (a b : List ℚ) : Except VectorStoreError ℝ :=
  if a.length = b.length then .ok (cosineSimVal a b)
  else .error .dimensionMismatch

/-- The Big-5 trait record of `seedUsers.ts`. -/
structure Traits where
  openness : ℚ
  conscientiousness : ℚ
  extraversion : ℚ
  agreeableness : ℚ
  neuroticism : ℚ
  deriving DecidableEq

/-- The `User` interface of `seedUsers.ts`. -/
structure User where
  id : String
  name : String
  age : ℚ
  uni : String
  vector : List ℚ
  traits : Traits
  interests : List String
  confidence : ℚ
  deriving DecidableEq

/-- `upsertUser` from `seedUsers.ts`: replace the entry at the first index whose
id matches (`findIndex` then assignment), otherwise push at the end.  The
module-global `users` array is passed and returned explicitly. -/
def upsertUser (user : User) (users : List User) : List User :=
  match users.findIdx? (fun u => u.id == user.id) with
  | some i => users.set i user
  | none => users ++ [user]

/-- `getUserById` from `seedUsers.ts`: the first entry with the given id
(`users.find`), `none` for `undefined`. -/
def getUserById (id : String) (users : List User) : Option User :=
  users.find? (fun u => u.id == id)

/-- The `TunerConfig` interface of `tuner.ts`. -/
structure TunerConfig where
  M : ℕ
  efConstruction : ℕ
  efSearch : ℕ
  deriving DecidableEq

/-- The `BenchmarkResult` interface of `tuner.ts` (extends `TunerConfig`). -/
structure BenchmarkResult extends TunerConfig where
  «recall» : ℚ
  avgLatencyMs : ℚ
  p95LatencyMs : ℚ
  queriesPerSecond : ℚ
  deriving DecidableEq

/-- The 8-entry reference catalog `CONFIGS` of `tuner.ts`. -/
def CONFIGS : List TunerConfig :=
  [ { M := 8, efConstruction := 100, efSearch := 20 },
    { M := 8, efConstruction := 100, efSearch := 50 },
    { M := 16, efConstruction := 100, efSearch := 50 },
    { M := 16, efConstruction := 200, efSearch := 100 },
    { M := 32, efConstruction := 200, efSearch := 100 },
    { M := 32, efConstruction := 200, efSearch := 200 },
    { M := 32, efConstruction := 400, efSearch := 200 },
    { M := 48, efConstruction := 400, efSearch := 300 } ]

/-- `getBestConfig` from `tuner.ts`: filter to the p95-latency budget; if no
config survives, `reduce` over all results keeping the strictly faster one,
otherwise `reduce` over the survivors keeping the strictly higher recall.
JavaScript `Array.reduce` with no initial value starts from the first element
and throws a `TypeError` on an empty array; that failure is modelled as
`none`. -/
def getBestConfig (results : List BenchmarkResult) (latencyBudgetMs : ℚ) :
    Option BenchmarkResult :=
  let eligible := results.filter (fun r => decide (r.p95LatencyMs ≤ latencyBudgetMs))
  if eligible.isEmpty then
    match results with
    | [] => none
    | x :: xs =>
      some (xs.foldl (fun best r =>
        if r.p95LatencyMs < best.p95LatencyMs then r else best) x)
  else
    match eligible with
    | [] => none
    | x :: xs =>
      some (xs.foldl (fun best r =>
        if best.«recall» < r.«recall» then r else best) x)

/-- The first element of the list attaining the maximal key; on ties the
element encountered first wins. -/
def firstMaxBy {α : Type} (key : α → ℚ) : List α → Option α
  | [] => none
  | x :: xs =>
    match firstMaxBy key xs with
    | none => some x
    | some m => if key x < key m then some m else some x

/-- The first element of the list attaining the minimal key; on ties the
element encountered first wins. -/
def firstMinBy {α : Type} (key : α → ℚ) : List α → Option α
  | [] => none
  | x :: xs =>
    match firstMinBy key xs with
    | none => some x
    | some m => if key m < key x then some m else some x

/-- `getBestConfig` as the spec words it: filter to configs whose p95 latency
meets the budget; among survivors pick the one with the highest recall, ties
broken by first-encountered in catalog order; if no config meets the budget,
fall back to the config with the lowest p95 latency. -/
def getBestConfigSpec (results : List BenchmarkResult) (latencyBudgetMs : ℚ) :
    Option BenchmarkResult :=
  let eligible := results.filter (fun r => decide (r.p95LatencyMs ≤ latencyBudgetMs))
  if eligible.isEmpty then firstMinBy (fun r => r.p95LatencyMs) results
  else firstMaxBy (fun r => r.«recall») eligible

/-- Ascending sort, as `latencies.sort((a, b) => a - b)`. -/
def sortAsc (l : List ℚ) : List ℚ :=
  List.insertionSort (fun a b => a ≤ b) l

/-- Lines 95-99 of `tuner.ts`: sort the latencies ascending, take the index
`Math.floor(latencies.length * 0.95)` — that is `19 * N / 20` with integer
division — and apply the JavaScript fallback
`latencies[p95Index] || latencies[latencies.length - 1]`.  `||` falls back not
only when the indexed element is `undefined` (modelled `none`) but also when it
is `0`, because `0` is falsy. -/
def p95Pick (latencies : List ℚ) : Option ℚ :=
  let sorted := sortAsc latencies
  let p95Index := 19 * sorted.length / 20
  match sorted.get? p95Index with
  | some v => if v = 0 then sorted.get? (sorted.length - 1) else some v
  | none => sorted.get? (sorted.length - 1)

/-- One entry of the similarity table built by `getExactNeighbors`:
`{ id, idx, sim }`. -/
structure SimEntry where
  id : String
  idx : ℕ
  sim : ℝ

/-- The mapped-and-filtered similarity table of `getExactNeighbors`
(tuner.ts lines 147-153): the cosine similarity of every corpus entry against
the query, then the self-exclusion filter `item.idx !== excludeIdx`. -/
noncomputable def exactCandidates (queryVector : List ℚ) (users : List User)
    (excludeIdx : ℕ) : List SimEntry :=
  (users.enum.map (fun p =>
    SimEntry.mk p.2.id p.1 (cosineSimVal queryVector p.2.vector))).filter
    (fun e => decide (e.idx ≠ excludeIdx))

/-- The descending-by-similarity order used by `sort((a, b) => b.sim - a.sim)`. -/
def simDesc (x y : SimEntry) : Prop := y.sim ≤ x.sim

noncomputable instance : DecidableRel simDesc :=
  fun x y => inferInstanceAs (Decidable (y.sim ≤ x.sim))

instance : IsTotal SimEntry simDesc := ⟨fun a b => le_total b.sim a.sim⟩

instance : IsTrans SimEntry simDesc := ⟨fun _ _ _ hab hbc => le_trans hbc hab⟩

/-- The similarity table of `getExactNeighbors`, sorted descending by
similarity (JavaScript `Array.sort` is stable; insertion sort keeps elements
that compare equal in their original order likewise). -/
noncomputable def exactSorted (queryVector : List ℚ) (users : List User)
    (excludeIdx : ℕ) : List SimEntry :=
  List.insertionSort simDesc (exactCandidates queryVector users excludeIdx)

/-- `getExactNeighbors` from `tuner.ts` (lines 140-156): brute-force exact
k-nearest-neighbor ids, `slice(0, k)` of the descending-sorted table mapped to
ids. -/
noncomputable def getExactNeighbors (queryVector : List ℚ) (users : List User)
    (k : ℕ) (excludeIdx : ℕ) : List String :=
  ((exactSorted queryVector users excludeIdx).take k).map (fun e => e.id)

/-- A node of the ANN graph: an entity's vector plus its adjacency list
(spec section 3, `IndexNode`). -/
structure IndexNode where
  id : String
  vector : List ℚ
  neighbors : List String
  deriving DecidableEq

/-- Node lookup by id in the graph. -/
def findNode (g : List IndexNode) (nid : String) : Option IndexNode :=
  g.find? (fun n => n.id == nid)

/-- Descending-by-similarity order on `(id, similarity)` candidates. -/
def candDesc (x y : String × ℝ) : Prop := y.2 ≤ x.2

noncomputable instance : DecidableRel candDesc :=
  fun x y => inferInstanceAs (Decidable (y.2 ≤ x.2))

instance : IsTotal (String × ℝ) candDesc := ⟨fun a b => le_total b.2 a.2⟩

instance : IsTrans (String × ℝ) candDesc := ⟨fun _ _ _ hab hbc => le_trans hbc hab⟩

/-- Candidates sorted best-first by similarity to the query. -/
noncomputable def sortCandDesc (l : List (String × ℝ)) : List (String × ℝ) :=
  List.insertionSort candDesc l

/-- Modelled from the spec: the stop test of the beam search (spec 4.2) —
terminate when the best remaining candidate does not improve the current k-th
best score. -/
noncomputable def stopNow (k : ℕ) (results : List (String × ℝ)) (csim : ℝ) : Bool :=
  if k ≤ results.length then
    match (sortCandDesc results).get? (k - 1) with
    | some kth => decide (csim ≤ kth.2)
    | none => false
  else false

/-- Modelled from the spec: expansion of a popped node — its neighbors that are
not yet visited, resolved through the graph (a dangling neighbor id is
skipped), each paired with its similarity to the query. -/
noncomputable def expandCands (g : List IndexNode) (queryVector : List ℚ)
    (visited : List String) (cid : String) : List (String × ℝ) :=
  let nbrIds := match findNode g cid with
    | some n => n.neighbors
    | none => []
  nbrIds.filterMap (fun nid =>
    if nid ∈ visited then none
    else (findNode g nid).map (fun n => (n.id, cosineSimVal queryVector n.vector)))

/-- Modelled from the spec: the beam-search loop of `search` in the missing
`vectorStore.ts` (spec 4.2).  Each step pops the most-promising candidate of
the frontier (an already-visited duplicate is dropped); the search terminates
when the frontier is exhausted or the best candidate does not improve the
current k-th best score, and otherwise expands to the `efSearch`
most-promising unvisited neighbors of the popped node.  The fuel argument
bounds the traversal; it only ever cuts the loop short, which is sound for the
safety properties proved below. -/
noncomputable def searchLoop (g : List IndexNode) (queryVector : List ℚ)
    (k efSearch : ℕ) :
    ℕ → List (String × ℝ) → List (String × ℝ) → List String → List (String × ℝ)
  | 0, _, results, _ => results
  | fuel + 1, candidates, results, visited =>
    match sortCandDesc candidates with
    | [] => results
    | c :: rest =>
      if c.1 ∈ visited then
        searchLoop g queryVector k efSearch fuel rest results visited
      else if stopNow k results c.2 then results
      else
        searchLoop g queryVector k efSearch fuel
          (rest ++ (sortCandDesc (expandCands g queryVector visited c.1)).take efSearch)
          (c :: results) (c.1 :: visited)

/-- Modelled from the spec: `searchWithEf` of the missing `vectorStore.ts`
(spec 4.2): fail with `EmptyIndex` on an index with zero nodes, otherwise run
the beam search from an entry point and return at most k `(id, similarity)`
pairs in non-increasing similarity order. -/
noncomputable def searchWithEf (g : List IndexNode) (queryVector : List ℚ)
    (k efSearch : ℕ) : Except VectorStoreError (List (String × ℝ)) :=
  match g with
  | [] => .error .emptyIndex
  | entry :: _ =>
    .ok ((sortCandDesc (searchLoop g queryVector k efSearch
      ((g.length + 1) * (efSearch + 1))
      [(entry.id, cosineSimVal queryVector entry.vector)] [] [])).take k)

/-- The failure modes of a benchmark sweep.  `undefinedAccess` models a
JavaScript `TypeError` from reading a property of `undefined`; `thrown e`
models an error thrown by the imported search escaping `runBenchmark`;
`benchmarkUnavailable` is the error named by the spec's taxonomy (section 7) —
it is declared here so the spec's claim about it can be stated, and the code as
written never raises it. -/
inductive RunFailure where
  | undefinedAccess
  | thrown (e : VectorStoreError)
  | benchmarkUnavailable
  deriving DecidableEq

/-- The type of the imported `searchWithEf` collaborator:
query vector, k, efSearch to a thrown error or a result list. -/
abbrev SearchFn := List ℚ → ℕ → ℕ → Except VectorStoreError (List (String × ℝ))

/-- The inner per-query loop of `runBenchmark` (tuner.ts lines 76-93) for one
config: look up each sampled user (`users[queryIdx]` is `undefined` past the
end of the array, and reading `.vector` on it throws), compute the exact ground
truth with `getExactNeighbors`, run the approximate search (a thrown error
propagates and aborts), and record the oracle-measured latency together with
the recall contribution `hits / k` (k = 10).  Returns the per-query latencies
in order and the accumulated total recall. -/
noncomputable def measureQueries (searchFn : SearchFn) (users : List User)
    (efSearch : ℕ) (latOracle : ℕ → ℚ) :
    List ℕ → ℕ → Except RunFailure (List ℚ × ℚ)
  | [], _ => .ok ([], 0)
  | queryIdx :: rest, pos =>
    match users.get? queryIdx with
    | none => .error .undefinedAccess
    | some u =>
      let groundTruth := getExactNeighbors u.vector users 10 queryIdx
      match searchFn u.vector 10 efSearch with
      | .error e => .error (.thrown e)
      | .ok approxResults =>
        match measureQueries searchFn users efSearch latOracle rest (pos + 1) with
        | .error e => .error e
        | .ok (lats, totalRecall) =>
          let hits := (groundTruth.filter
            (fun gid => approxResults.any (fun r => r.1 == gid))).length
          .ok (latOracle pos :: lats, (hits : ℚ) / 10 + totalRecall)

/-- `parseFloat(x.toFixed(2))`: round to the nearest hundredth, ties upward. -/
def round2 (q : ℚ) : ℚ := (round (q * 100) : ℤ) / 100

/-- `parseFloat(x.toFixed(1))`: round to the nearest tenth, ties upward. -/
def round1 (q : ℚ) : ℚ := (round (q * 10) : ℤ) / 10

/-- The per-config sweep of `runBenchmark` (tuner.ts lines 70-108): for each
catalog entry measure the sampled queries, then aggregate — mean latency, the
p95 pick of the sorted latencies, mean recall over `numQueries`, and
throughput `1000 / avgLatency`.  When `p95Pick` yields `none` (the empty
corpus leaves `latencies` empty), `p95Latency.toFixed(2)` throws, modelled as
`undefinedAccess`; rational division by zero returning 0 stands where
JavaScript would produce `NaN` or `Infinity` in fields of rows that the error
paths below never construct, except `queriesPerSecond`, which no claim
concerns. -/
noncomputable def sweep (searchFn : SearchFn) (sample : ℕ → List ℕ)
    (lat : ℕ → ℕ → ℚ) (users : List User) (numQueries : ℕ) :
    List (ℕ × TunerConfig) → Except RunFailure (List BenchmarkResult)
  | [] => .ok []
  | (ci, config) :: restConfigs =>
    match measureQueries searchFn users config.efSearch (lat ci) (sample ci) 0 with
    | .error e => .error e
    | .ok (latencies, totalRecall) =>
      match p95Pick latencies with
      | none => .error .undefinedAccess
      | some p95Latency =>
        let avgLatency := latencies.sum / (latencies.length : ℚ)
        let row : BenchmarkResult :=
          { toTunerConfig := config
            «recall» := totalRecall / (numQueries : ℚ)
            avgLatencyMs := round2 avgLatency
            p95LatencyMs := round2 p95Latency
            queriesPerSecond := round1 (1000 / avgLatency) }
        match sweep searchFn sample lat users numQueries restConfigs with
        | .error e => .error e
        | .ok rows => .ok (row :: rows)

/-- `runBenchmark` (tuner.ts lines 61-112) with its imported collaborator — the
`searchWithEf` of the missing `vectorStore.ts` — and its two ambient effects
passed in explicitly: `sample ci` stands for the value of
`sampleIndices(users.length, numQueries)` drawn in config `ci`'s iteration, and
`lat ci qi` for the measured `endTime - startTime` of that iteration's `qi`-th
query.  `numQueries = Math.min(20, users.length)`. -/
noncomputable def runBenchmarkWith (searchFn : SearchFn) (sample : ℕ → List ℕ)
    (lat : ℕ → ℕ → ℚ) (users : List User) :
    Except RunFailure (List BenchmarkResult) :=
  sweep searchFn sample lat users (min 20 users.length) CONFIGS.enum

/-- Concrete benchmark rows used to instantiate theorems with hypotheses. -/
def brSlow : BenchmarkResult :=
  { M := 8, efConstruction := 100, efSearch := 20,
    «recall» := 1/2, avgLatencyMs := 2, p95LatencyMs := 5, queriesPerSecond := 500 }

/-- A second concrete benchmark row: faster and more accurate than `brSlow`. -/
def brFast : BenchmarkResult :=
  { M := 16, efConstruction := 100, efSearch := 50,
    «recall» := 3/4, avgLatencyMs := 1, p95LatencyMs := 3, queriesPerSecond := 1000 }

/-- A concrete trait record for instantiating theorems. -/
def traitsW : Traits :=
  { openness := 1/2, conscientiousness := 1/2, extraversion := 1/2,
    agreeableness := 1/2, neuroticism := 1/2 }

/-- A concrete user used to instantiate theorems with hypotheses. -/
def userA : User :=
  { id := "user_000", name := "Alyssa Tan", age := 21, uni := "NUS",
    vector := [1, 0, 0, 0, 0], traits := traitsW, interests := [], confidence := 1 }

/-- A second concrete user with a distinct id. -/
def userB : User :=
  { id := "user_001", name := "Marcus Patel", age := 22, uni := "NTU",
    vector := [0, 1, 0, 0, 0], traits := traitsW, interests := [], confidence := 1 }

/-- An updated profile for the same entity id as `userB`. -/
def userB2 : User :=
  { id := "user_001", name := "Marcus P.", age := 23, uni := "NTU",
    vector := [0, 1, 1, 0, 0], traits := traitsW, interests := [], confidence := 1 }

/-- A concrete one-node index used to instantiate search theorems. -/
def node0 : IndexNode :=
  { id := "user_000", vector := [1, 0, 0, 0, 0], neighbors := [] }

/-- A search stub for instantiating the abort theorem: it succeeds on every
query at beam width 20 (the first catalog config) and on `userA`'s vector at
any width, but throws `DimensionMismatch` on `userB`'s vector at widths other
than 20 — so the first thrown call happens on the second sampled query of the
second catalog config. -/
def searchFnThrowB : SearchFn := fun q _ ef =>
  if ef = 20 then .ok []
  else if q = userB.vector then .error .dimensionMismatch
  else .ok []

lemma sortAsc_length (l : List ℚ) : (sortAsc l).length = l.length :=
  (List.perm_insertionSort _ l).length_eq

lemma firstMaxBy_cons_foldl {α : Type} (key : α → ℚ) (xs : List α) :
    ∀ x : α,
      firstMaxBy key (x :: xs) =
        some (xs.foldl (fun best r => if key best < key r then r else best) x) := by
  induction xs with
  | nil => intro x; simp [firstMaxBy]
  | cons y ys ih =>
    intro x
    rw [List.foldl_cons, ← ih]
    by_cases hxy : key x < key y
    · cases hF : firstMaxBy key ys with
      | none => simp [firstMaxBy, hF, hxy]
      | some m =>
        by_cases hym : key y < key m
        · simp [firstMaxBy, hF, hym, hxy, lt_trans hxy hym]
        · simp [firstMaxBy, hF, hym, hxy]
    · cases hF : firstMaxBy key ys with
      | none => simp [firstMaxBy, hF, hxy]
      | some m =>
        by_cases hym : key y < key m
        · simp [firstMaxBy, hF, hym, hxy]
        · have hxm : ¬ key x < key m :=
            not_lt.mpr (le_trans (not_lt.mp hym) (not_lt.mp hxy))
          simp [firstMaxBy, hF, hym, hxy, hxm]

lemma firstMinBy_cons_foldl {α : Type} (key : α → ℚ) (xs : List α) :
    ∀ x : α,
      firstMinBy key (x :: xs) =
        some (xs.foldl (fun best r => if key r < key best then r else best) x) := by
  induction xs with
  | nil => intro x; simp [firstMinBy]
  | cons y ys ih =>
    intro x
    rw [List.foldl_cons, ← ih]
    by_cases hxy : key y < key x
    · cases hF : firstMinBy key ys with
      | none => simp [firstMinBy, hF, hxy]
      | some m =>
        by_cases hym : key m < key y
        · simp [firstMinBy, hF, hym, hxy, lt_trans hym hxy]
        · simp [firstMinBy, hF, hym, hxy]
    · cases hF : firstMinBy key ys with
      | none => simp [firstMinBy, hF, hxy]
      | some m =>
        by_cases hym : key m < key y
        · simp [firstMinBy, hF, hym, hxy]
        · have hxm : ¬ key m < key x :=
            not_lt.mpr (le_trans (not_lt.mp hxy) (not_lt.mp hym))
          simp [firstMinBy, hF, hym, hxy, hxm]

lemma firstMaxBy_mem_le {α : Type} (key : α → ℚ) (l : List α) :
    ∀ m, firstMaxBy key l = some m → m ∈ l ∧ ∀ y ∈ l, key y ≤ key m := by
  induction l with
  | nil => intro m h; simp [firstMaxBy] at h
  | cons x xs ih =>
    intro m h
    cases hF : firstMaxBy key xs with
    | none =>
      have hxs : xs = [] := by
        cases xs with
        | nil => rfl
        | cons a as =>
          exfalso
          cases h' : firstMaxBy key as with
          | none => simp [firstMaxBy, h'] at hF
          | some mm =>
            simp only [firstMaxBy, h'] at hF
            split_ifs at hF
      subst hxs
      simp [firstMaxBy] at h
      subst h
      simp
    | some mm =>
      obtain ⟨hmem, hall⟩ := ih mm hF
      simp only [firstMaxBy, hF] at h
      by_cases hx : key x < key mm
      · rw [if_pos hx] at h
        injection h with h; subst h
        refine ⟨List.mem_cons_of_mem x hmem, ?_⟩
        intro y hy
        rcases List.mem_cons.mp hy with rfl | hy
        · exact le_of_lt hx
        · exact hall y hy
      · rw [if_neg hx] at h
        injection h with h; subst h
        refine ⟨List.mem_cons_self _ _, ?_⟩
        intro y hy
        rcases List.mem_cons.mp hy with rfl | hy
        · exact le_refl _
        · exact le_trans (hall y hy) (not_lt.mp hx)

lemma firstMinBy_mem_le {α : Type} (key : α → ℚ) (l : List α) :
    ∀ m, firstMinBy key l = some m → m ∈ l ∧ ∀ y ∈ l, key m ≤ key y := by
  induction l with
  | nil => intro m h; simp [firstMinBy] at h
  | cons x xs ih =>
    intro m h
    cases hF : firstMinBy key xs with
    | none =>
      have hxs : xs = [] := by
        cases xs with
        | nil => rfl
        | cons a as =>
          exfalso
          cases h' : firstMinBy key as with
          | none => simp [firstMinBy, h'] at hF
          | some mm =>
            simp only [firstMinBy, h'] at hF
            split_ifs at hF
      subst hxs
      simp [firstMinBy] at h
      subst h
      simp
    | some mm =>
      obtain ⟨hmem, hall⟩ := ih mm hF
      simp only [firstMinBy, hF] at h
      by_cases hx : key mm < key x
      · rw [if_pos hx] at h
        injection h with h; subst h
        refine ⟨List.mem_cons_of_mem x hmem, ?_⟩
        intro y hy
        rcases List.mem_cons.mp hy with rfl | hy
        · exact le_of_lt hx
        · exact hall y hy
      · rw [if_neg hx] at h
        injection h with h; subst h
        refine ⟨List.mem_cons_self _ _, ?_⟩
        intro y hy
        rcases List.mem_cons.mp hy with rfl | hy
        · exact le_refl _
        · exact le_trans (not_lt.mp hx) (hall y hy)

/-- C6 counterexample: on 21 latencies — twenty `0`s and one `5` — the element
at index `floor(0.95 * 21) = 19` of the ascending sort is `0` (in range), yet
the code reports `5`, because `0` is falsy for `||` and the fallback to the
last element fires. -/
theorem p95Pick_counterexample :
    p95Pick (List.replicate 20 (0:ℚ) ++ [5]) = some 5 ∧
    (sortAsc (List.replicate 20 (0:ℚ) ++ [5])).get?
      (19 * (List.replicate 20 (0:ℚ) ++ [5]).length / 20) = some 0 ∧
    (5:ℚ) ≠ 0 := by
  refine ⟨by decide, by decide, by decide⟩

/-- C6 (amended): the reported p95 latency equals the element at index
`floor(0.95 * N)` of the ascending-sorted latencies whenever that element is
nonzero; when it is zero, the JavaScript `||` falls back to the last (largest)
element.  For a non-empty list the index is never outside the array. -/
theorem p95Pick_spec_amended (L : List ℚ) (h1 : L ≠ [])
    (h2 : ∀ v, (sortAsc L).get? (19 * L.length / 20) = some v → v ≠ 0) :
    p95Pick L = (sortAsc L).get? (19 * L.length / 20) := by
  have hlen : (sortAsc L).length = L.length := sortAsc_length L
  have hpos : 0 < L.length := List.length_pos.mpr h1
  unfold p95Pick
  dsimp only
  rw [hlen]
  obtain ⟨v, hv⟩ : ∃ v, (sortAsc L).get? (19 * L.length / 20) = some v := by
    rw [List.get?_eq_get (by omega : 19 * L.length / 20 < (sortAsc L).length)]
    exact ⟨_, rfl⟩
  rw [hv]
  simp [h2 v hv]

/-- C6 amended, instantiated: for the latencies `[3, 1, 2]` the pick is the
element at index `floor(0.95 * 3) = 2` of the ascending sort. -/
theorem p95Pick_spec_amended_witness :
    p95Pick [(3:ℚ), 1, 2] =
      (sortAsc [(3:ℚ), 1, 2]).get? (19 * ([(3:ℚ), 1, 2]).length / 20) := by
  refine p95Pick_spec_amended [(3:ℚ), 1, 2] (by decide) ?_
  intro v hv
  have h3 : (sortAsc [(3:ℚ), 1, 2]).get? (19 * ([(3:ℚ), 1, 2]).length / 20) =
      some 3 := by decide
  rw [h3] at hv
  injection hv with hv
  rw [← hv]
  decide

/-- For lists of at most 20 latencies — every list `runBenchmark` builds, since
`numQueries = min(20, corpus size)` — `floor(0.95 * N) = N - 1`, so the pick is
the element at the last index of the ascending sort even through the falsy
fallback. -/
lemma p95Pick_last (L : List ℚ) (h1 : L ≠ []) (h20 : L.length ≤ 20) :
    p95Pick L = (sortAsc L).get? (L.length - 1) := by
  have hlen : (sortAsc L).length = L.length := sortAsc_length L
  have hpos : 0 < L.length := List.length_pos.mpr h1
  have hidx : 19 * L.length / 20 = L.length - 1 := by omega
  unfold p95Pick
  dsimp only
  rw [hlen, hidx]
  obtain ⟨v, hv⟩ : ∃ v, (sortAsc L).get? (L.length - 1) = some v := by
    rw [List.get?_eq_get (by omega : L.length - 1 < (sortAsc L).length)]
    exact ⟨_, rfl⟩
  rw [hv]
  by_cases hz : v = 0
  · simp [hz, hv]
  · simp [hz]

/-- C10: applied to an empty list of benchmark results `getBestConfig` fails —
JavaScript `reduce` over an empty array with no initial value throws, modelled
as `none` — and it returns a value exactly when at least one result is
supplied. -/
theorem getBestConfig_partiality :
    (∀ budget : ℚ, getBestConfig [] budget = none) ∧
    (∀ (results : List BenchmarkResult) (budget : ℚ),
      (getBestConfig results budget).isSome = true ↔ results ≠ []) := by
  constructor
  · intro budget; rfl
  · intro results budget
    cases results with
    | nil => simp [getBestConfig]
    | cons x xs =>
      simp only [ne_eq, List.cons_ne_nil, not_false_eq_true, iff_true]
      unfold getBestConfig
      by_cases he : ((x :: xs).filter (fun r => decide (r.p95LatencyMs ≤ budget))).isEmpty
      · simp [he]
      · cases heq : (x :: xs).filter (fun r => decide (r.p95LatencyMs ≤ budget)) with
        | nil => rw [heq] at he; simp at he
        | cons e es => simp [he, heq]

/-- C10, instantiated: the empty sweep fails while a one-row sweep selects. -/
theorem getBestConfig_partiality_witness :
    getBestConfig [] 50 = none ∧
    (getBestConfig [brSlow] 50).isSome = true :=
  ⟨getBestConfig_partiality.1 50,
    (getBestConfig_partiality.2 [brSlow] 50).mpr (List.cons_ne_nil _ _)⟩

lemma firstMinBy_p95_foldl (xs : List BenchmarkResult) (x : BenchmarkResult) :
    firstMinBy (fun r : BenchmarkResult => r.p95LatencyMs) (x :: xs) =
      some (xs.foldl (fun best r =>
        if r.p95LatencyMs < best.p95LatencyMs then r else best) x) :=
  firstMinBy_cons_foldl (fun r : BenchmarkResult => r.p95LatencyMs) xs x

lemma firstMaxBy_recall_foldl (xs : List BenchmarkResult) (x : BenchmarkResult) :
    firstMaxBy (fun r : BenchmarkResult => r.«recall») (x :: xs) =
      some (xs.foldl (fun best r =>
        if best.«recall» < r.«recall» then r else best) x) :=
  firstMaxBy_cons_foldl (fun r : BenchmarkResult => r.«recall») xs x

/-- C1: on a non-empty result list, `getBestConfig` agrees with the spec's
selection rule — among the results whose p95 latency is within the budget it
returns the one with the highest recall, ties broken in favour of the result
first in catalog order, and when no result is within the budget it returns the
first result attaining the globally lowest p95 latency. -/
theorem getBestConfig_correct (results : List BenchmarkResult) (budget : ℚ)
    (h : results ≠ []) :
    getBestConfig results budget = getBestConfigSpec results budget ∧
    ∃ r, getBestConfig results budget = some r ∧ r ∈ results ∧
      ((∃ x ∈ results, x.p95LatencyMs ≤ budget) →
        r.p95LatencyMs ≤ budget ∧
          ∀ x ∈ results, x.p95LatencyMs ≤ budget → x.«recall» ≤ r.«recall») ∧
      ((∀ x ∈ results, ¬ x.p95LatencyMs ≤ budget) →
        ∀ x ∈ results, r.p95LatencyMs ≤ x.p95LatencyMs) := by
  obtain ⟨x, xs, rfl⟩ := List.exists_cons_of_ne_nil h
  by_cases he :
      ((x :: xs).filter (fun r => decide (r.p95LatencyMs ≤ budget))).isEmpty
  · have hfil : (x :: xs).filter (fun r => decide (r.p95LatencyMs ≤ budget)) = [] :=
      List.isEmpty_iff.mp he
    have hnone : ∀ y ∈ x :: xs, ¬ y.p95LatencyMs ≤ budget := by
      intro y hy
      have := List.filter_eq_nil_iff.mp hfil y hy
      simpa using this
    have hcode : getBestConfig (x :: xs) budget =
        some (xs.foldl (fun best r =>
          if r.p95LatencyMs < best.p95LatencyMs then r else best) x) := by
      unfold getBestConfig
      dsimp only
      rw [if_pos he]
    have hspec : getBestConfigSpec (x :: xs) budget =
        some (xs.foldl (fun best r =>
          if r.p95LatencyMs < best.p95LatencyMs then r else best) x) := by
      unfold getBestConfigSpec
      dsimp only
      rw [if_pos he]
      exact firstMinBy_p95_foldl xs x
    obtain ⟨hmem, hall⟩ :=
      firstMinBy_mem_le (fun r : BenchmarkResult => r.p95LatencyMs) (x :: xs) _
        (firstMinBy_p95_foldl xs x)
    refine ⟨hcode.trans hspec.symm, _, hcode, hmem, ?_, ?_⟩
    · rintro ⟨y, hy, hyle⟩
      exact absurd hyle (hnone y hy)
    · intro _ y hy
      exact hall y hy
  · cases heq : (x :: xs).filter (fun r => decide (r.p95LatencyMs ≤ budget)) with
    | nil => rw [heq] at he; simp at he
    | cons e es =>
      have hcode : getBestConfig (x :: xs) budget =
          some (es.foldl (fun best r =>
            if best.«recall» < r.«recall» then r else best) e) := by
        unfold getBestConfig
        dsimp only
        rw [if_neg he, heq]
      have hspec : getBestConfigSpec (x :: xs) budget =
          some (es.foldl (fun best r =>
            if best.«recall» < r.«recall» then r else best) e) := by
        unfold getBestConfigSpec
        dsimp only
        rw [if_neg he, heq]
        exact firstMaxBy_recall_foldl es e
      obtain ⟨hmem, hall⟩ :=
        firstMaxBy_mem_le (fun r : BenchmarkResult => r.«recall») (e :: es) _
          (firstMaxBy_recall_foldl es e)
      have hmemFil : ∀ y ∈ e :: es,
          y ∈ x :: xs ∧ y.p95LatencyMs ≤ budget := by
        intro y hy
        rw [← heq] at hy
        obtain ⟨hy1, hy2⟩ := List.mem_filter.mp hy
        exact ⟨hy1, by simpa using hy2⟩
      obtain ⟨hrmem, hrle⟩ := hmemFil _ hmem
      refine ⟨hcode.trans hspec.symm, _, hcode, hrmem, ?_, ?_⟩
      · intro _
        refine ⟨hrle, ?_⟩
        intro y hy hyle
        have : y ∈ e :: es := by
          rw [← heq]
          exact List.mem_filter.mpr ⟨hy, by simpa using hyle⟩
        exact hall y this
      · intro habs
        exact absurd hrle (habs _ hrmem)

/-- C1, instantiated: with a budget of 4 ms only `brFast` is eligible and it is
selected. -/
theorem getBestConfig_correct_witness :
    getBestConfig [brSlow, brFast] 4 = getBestConfigSpec [brSlow, brFast] 4 ∧
    ∃ r, getBestConfig [brSlow, brFast] 4 = some r ∧ r ∈ [brSlow, brFast] ∧
      ((∃ x ∈ [brSlow, brFast], x.p95LatencyMs ≤ 4) →
        r.p95LatencyMs ≤ 4 ∧
          ∀ x ∈ [brSlow, brFast], x.p95LatencyMs ≤ 4 → x.«recall» ≤ r.«recall») ∧
      ((∀ x ∈ [brSlow, brFast], ¬ x.p95LatencyMs ≤ 4) →
        ∀ x ∈ [brSlow, brFast], r.p95LatencyMs ≤ x.p95LatencyMs) :=
  getBestConfig_correct [brSlow, brFast] 4 (List.cons_ne_nil _ _)

lemma upsertUser_getUserById (u : User) (users : List User) :
    getUserById u.id (upsertUser u users) = some u := by
  induction users with
  | nil =>
    simp [upsertUser, getUserById]
  | cons a as ih =>
    by_cases hpa : (a.id == u.id) = true
    · have hrepl : upsertUser u (a :: as) = u :: as := by
        unfold upsertUser
        simp [List.findIdx?_cons, hpa]
      rw [hrepl]
      simp [getUserById]
    · cases hF : as.findIdx? (fun x => x.id == u.id) with
      | none =>
        have hcons : upsertUser u (a :: as) = a :: (as ++ [u]) := by
          unfold upsertUser
          simp [List.findIdx?_cons, hpa, List.findIdx?_succ, hF]
        have htail : upsertUser u as = as ++ [u] := by
          unfold upsertUser
          simp [hF]
        rw [hcons]
        rw [htail] at ih
        simpa [getUserById, hpa] using ih
      | some i =>
        have hcons : upsertUser u (a :: as) = a :: as.set i u := by
          unfold upsertUser
          simp [List.findIdx?_cons, hpa, List.findIdx?_succ, hF]
        have htail : upsertUser u as = as.set i u := by
          unfold upsertUser
          simp [hF]
        rw [hcons]
        rw [htail] at ih
        simpa [getUserById, hpa] using ih

lemma upsertUser_frame (u : User) (users : List User) :
    ∀ (j : ℕ) (x : User), users[j]? = some x → x.id ≠ u.id →
      (upsertUser u users)[j]? = some x := by
  intro j x hx hne
  unfold upsertUser
  cases hF : users.findIdx? (fun y => y.id == u.id) with
  | none =>
    obtain ⟨hj, _⟩ := List.getElem?_eq_some_iff.mp hx
    rw [List.getElem?_append_left hj]
    exact hx
  | some i =>
    by_cases hij : i = j
    · exfalso
      subst hij
      obtain ⟨hi, hpi, _⟩ := List.findIdx?_eq_some_iff_getElem.mp hF
      obtain ⟨hlt, hEq⟩ := List.getElem?_eq_some_iff.mp hx
      apply hne
      rw [← hEq]
      exact beq_iff_eq.mp hpi
    · rw [List.getElem?_set_ne hij]
      exact hx

lemma upsertUser_append (u : User) (users : List User)
    (h : ∀ x ∈ users, x.id ≠ u.id) :
    upsertUser u users = users ++ [u] := by
  unfold upsertUser
  have hF : users.findIdx? (fun y => y.id == u.id) = none := by
    rw [List.findIdx?_eq_none_iff]
    intro x hx
    exact beq_eq_false_iff_ne.mpr (h x hx)
  rw [hF]

/-- C9: `upsertUser u` replaces the entry at the first index whose id equals
`u.id` when one exists and otherwise appends `u`; every entry whose id differs
from `u.id` keeps its position and value, and afterwards `getUserById u.id`
returns `u`. -/
theorem upsertUser_spec (users : List User) (u : User) :
    getUserById u.id (upsertUser u users) = some u ∧
    (∀ (j : ℕ) (x : User), users[j]? = some x → x.id ≠ u.id →
      (upsertUser u users)[j]? = some x) ∧
    ((∀ x ∈ users, x.id ≠ u.id) → upsertUser u users = users ++ [u]) ∧
    (∀ i, users.findIdx? (fun x => x.id == u.id) = some i →
      upsertUser u users = users.set i u) := by
  refine ⟨upsertUser_getUserById u users, upsertUser_frame u users,
    upsertUser_append u users, ?_⟩
  intro i h
  unfold upsertUser
  rw [h]

/-- C9, instantiated: upserting an updated profile for `user_001` into a
two-user store. -/
theorem upsertUser_spec_witness :
    getUserById userB2.id (upsertUser userB2 [userA, userB]) = some userB2 ∧
    (∀ (j : ℕ) (x : User), [userA, userB][j]? = some x → x.id ≠ userB2.id →
      (upsertUser userB2 [userA, userB])[j]? = some x) ∧
    ((∀ x ∈ [userA, userB], x.id ≠ userB2.id) →
      upsertUser userB2 [userA, userB] = [userA, userB] ++ [userB2]) ∧
    (∀ i, [userA, userB].findIdx? (fun x => x.id == userB2.id) = some i →
      upsertUser userB2 [userA, userB] = [userA, userB].set i userB2) :=
  upsertUser_spec [userA, userB] userB2

lemma dotQ_comm (a b : List ℚ) : dotQ a b = dotQ b a := by
  unfold dotQ
  rw [List.zipWith_comm_of_comm (fun x y => x * y) mul_comm]

lemma dotQ_self_nonneg (a : List ℚ) : 0 ≤ dotQ a a := by
  unfold dotQ
  rw [List.zipWith_same]
  apply List.sum_nonneg
  intro x hx
  obtain ⟨y, _, rfl⟩ := List.mem_map.mp hx
  exact mul_self_nonneg y

lemma dotQ_self_pos (a : List ℚ) (h : ∃ x ∈ a, x ≠ 0) : 0 < dotQ a a := by
  induction a with
  | nil =>
    obtain ⟨x, hx, _⟩ := h
    simp at hx
  | cons y t ih =>
    have hyt : dotQ (y :: t) (y :: t) = y * y + dotQ t t := by
      unfold dotQ
      simp
    rw [hyt]
    obtain ⟨x, hx, hxne⟩ := h
    rcases List.mem_cons.mp hx with rfl | hxt
    · have h1 : 0 < x * x := mul_self_pos.mpr hxne
      have h2 := dotQ_self_nonneg t
      linarith
    · have h1 := ih ⟨x, hxt, hxne⟩
      nlinarith [mul_self_nonneg y]

lemma cosineSimVal_comm (a b : List ℚ) : cosineSimVal a b = cosineSimVal b a := by
  unfold cosineSimVal
  rw [dotQ_comm a b]
  by_cases h : dotQ a a = 0 ∨ dotQ b b = 0
  · rw [if_pos h, if_pos (Or.symm h)]
  · rw [if_neg h, if_neg (fun hc => h (Or.symm hc))]
    rw [mul_comm]

lemma cosineSimVal_self (a : List ℚ) (h : ∃ x ∈ a, x ≠ 0) :
    cosineSimVal a a = 1 := by
  have hpos := dotQ_self_pos a h
  have hne : ¬ (dotQ a a = 0 ∨ dotQ a a = 0) := by
    rw [or_self]
    exact ne_of_gt hpos
  unfold cosineSimVal
  rw [if_neg hne]
  have hcast : (0:ℝ) ≤ ((dotQ a a : ℚ) : ℝ) := by
    exact_mod_cast le_of_lt hpos
  rw [Real.mul_self_sqrt hcast]
  have hne2 : ((dotQ a a : ℚ) : ℝ) ≠ 0 := by
    exact_mod_cast ne_of_gt hpos
  exact div_self hne2

/-- C8: on equal-dimension vectors cosine similarity is symmetric; on a nonzero
vector against itself it is exactly 1 (the float-level `≈ 1` is exact once
floats are modelled as reals); and it returns 0 whenever either input has zero
magnitude (`dotQ a a = 0` says every coordinate of `a` is zero). -/
theorem cosineSimilarity_props :
    (∀ a b : List ℚ, a.length = b.length →
      cosineSimilarity a b = cosineSimilarity b a) ∧
    (∀ a : List ℚ, (∃ x ∈ a, x ≠ 0) →
      cosineSimilarity a a = .ok 1) ∧
    (∀ a b : List ℚ, a.length = b.length →
      (dotQ a a = 0 ∨ dotQ b b = 0) → cosineSimilarity a b = .ok 0) := by
  refine ⟨?_, ?_, ?_⟩
  · intro a b h
    unfold cosineSimilarity
    rw [if_pos h, if_pos h.symm, cosineSimVal_comm]
  · intro a h
    unfold cosineSimilarity
    rw [if_pos rfl, cosineSimVal_self a h]
  · intro a b h hz
    unfold cosineSimilarity
    rw [if_pos h]
    unfold cosineSimVal
    rw [if_pos hz]

/-- C8, instantiated at `[3, 4]`, `[4, 3]` and the zero vector. -/
theorem cosineSimilarity_props_witness :
    cosineSimilarity [(3:ℚ), 4] [(4:ℚ), 3] = cosineSimilarity [(4:ℚ), 3] [(3:ℚ), 4] ∧
    cosineSimilarity [(3:ℚ), 4] [(3:ℚ), 4] = .ok 1 ∧
    cosineSimilarity [(0:ℚ), 0] [(4:ℚ), 3] = .ok 0 :=
  ⟨cosineSimilarity_props.1 [(3:ℚ), 4] [(4:ℚ), 3] rfl,
   cosineSimilarity_props.2.1 [(3:ℚ), 4] ⟨3, by decide, by decide⟩,
   cosineSimilarity_props.2.2 [(0:ℚ), 0] [(4:ℚ), 3] rfl (Or.inl (by simp [dotQ]))⟩

lemma exactCandidates_entry (queryVector : List ℚ) (users : List User)
    (excludeIdx : ℕ) :
    ∀ e ∈ exactCandidates queryVector users excludeIdx,
      e.idx ≠ excludeIdx ∧ ∃ u0, users[e.idx]? = some u0 ∧
        u0.id = e.id ∧ e.sim = cosineSimVal queryVector u0.vector := by
  intro e he
  obtain ⟨hmap, hpred⟩ := List.mem_filter.mp he
  obtain ⟨p, hp, hmk⟩ := List.mem_map.mp hmap
  refine ⟨by simpa using hpred, p.2, ?_, ?_, ?_⟩
  · rw [← hmk]
    exact List.mem_enum_iff_getElem?.mp hp
  · rw [← hmk]
  · rw [← hmk]

/-- C3: `getExactNeighbors` returns the ids of the k non-excluded corpus
entries with the highest cosine similarity to the query (fewer when fewer
exist), ordered by non-increasing cosine similarity: the similarity table lists
every corpus entry except the excluded index with its cosine similarity, the
sorted table is a permutation of it in non-increasing order, every taken entry
is at least as similar as every dropped one, and the answer is the ids of the
first k entries of the sorted table. -/
theorem getExactNeighbors_spec (queryVector : List ℚ) (users : List User)
    (k excludeIdx : ℕ) :
    getExactNeighbors queryVector users k excludeIdx =
      ((exactSorted queryVector users excludeIdx).take k).map SimEntry.id ∧
    (exactSorted queryVector users excludeIdx).Sorted simDesc ∧
    (exactSorted queryVector users excludeIdx).Perm
      (exactCandidates queryVector users excludeIdx) ∧
    (getExactNeighbors queryVector users k excludeIdx).length =
      min k (exactCandidates queryVector users excludeIdx).length ∧
    (∀ x ∈ (exactSorted queryVector users excludeIdx).take k,
      ∀ y ∈ (exactSorted queryVector users excludeIdx).drop k, simDesc x y) ∧
    (∀ nid ∈ getExactNeighbors queryVector users k excludeIdx,
      ∃ u0 ∈ users, u0.id = nid) := by
  have hsorted : (exactSorted queryVector users excludeIdx).Sorted simDesc :=
    List.sorted_insertionSort simDesc _
  have hperm : (exactSorted queryVector users excludeIdx).Perm
      (exactCandidates queryVector users excludeIdx) :=
    List.perm_insertionSort simDesc _
  refine ⟨rfl, hsorted, hperm, ?_, ?_, ?_⟩
  · unfold getExactNeighbors
    rw [List.length_map, List.length_take, hperm.length_eq]
  · intro x hx y hy
    exact hsorted.rel_of_mem_take_of_mem_drop hx hy
  · intro nid hnid
    unfold getExactNeighbors at hnid
    obtain ⟨e, he, hid⟩ := List.mem_map.mp hnid
    have hcand : e ∈ exactCandidates queryVector users excludeIdx :=
      hperm.mem_iff.mp (List.mem_of_mem_take he)
    obtain ⟨_, u0, hu0, huid, _⟩ :=
      exactCandidates_entry queryVector users excludeIdx e hcand
    exact ⟨u0, List.getElem?_mem hu0, huid.trans hid⟩

lemma expandCands_mem (g : List IndexNode) (queryVector : List ℚ)
    (visited : List String) (cid : String) :
    ∀ x ∈ expandCands g queryVector visited cid, ∃ n ∈ g, n.id = x.1 := by
  intro x hx
  unfold expandCands at hx
  obtain ⟨nid, _, hf⟩ := List.mem_filterMap.mp hx
  by_cases hv : nid ∈ visited
  · rw [if_pos hv] at hf
    exact absurd hf (by simp)
  · rw [if_neg hv] at hf
    obtain ⟨n, hfind, hxn⟩ := Option.map_eq_some'.mp hf
    refine ⟨n, List.mem_of_find?_eq_some hfind, ?_⟩
    rw [← hxn]

lemma searchLoop_mem (g : List IndexNode) (queryVector : List ℚ) (k efSearch : ℕ) :
    ∀ (fuel : ℕ) (cands res : List (String × ℝ)) (visited : List String),
      (∀ c ∈ cands, ∃ n ∈ g, n.id = c.1) →
      (∀ c ∈ res, ∃ n ∈ g, n.id = c.1) →
      ∀ c ∈ searchLoop g queryVector k efSearch fuel cands res visited,
        ∃ n ∈ g, n.id = c.1 := by
  intro fuel
  induction fuel with
  | zero =>
    intro cands res visited _ hr c hcl
    exact hr c hcl
  | succ fuel ih =>
    intro cands res visited hc hr c hcl
    rw [searchLoop] at hcl
    cases hsort : sortCandDesc cands with
    | nil =>
      rw [hsort] at hcl
      exact hr c hcl
    | cons c0 rest =>
      rw [hsort] at hcl
      dsimp only at hcl
      have hc0 : c0 ∈ cands := by
        refine (List.perm_insertionSort candDesc cands).subset ?_
        rw [show List.insertionSort candDesc cands = sortCandDesc cands from rfl, hsort]
        exact List.mem_cons_self _ _
      have hrest : ∀ x ∈ rest, x ∈ cands := by
        intro x hx
        refine (List.perm_insertionSort candDesc cands).subset ?_
        rw [show List.insertionSort candDesc cands = sortCandDesc cands from rfl, hsort]
        exact List.mem_cons_of_mem _ hx
      by_cases hvis : c0.1 ∈ visited
      · rw [if_pos hvis] at hcl
        exact ih rest res visited (fun x hx => hc x (hrest x hx)) hr c hcl
      · rw [if_neg hvis] at hcl
        by_cases hstop : stopNow k res c0.2 = true
        · rw [if_pos hstop] at hcl
          exact hr c hcl
        · rw [if_neg hstop] at hcl
          refine ih _ _ _ ?_ ?_ c hcl
          · intro x hx
            rcases List.mem_append.mp hx with hx | hx
            · exact hc x (hrest x hx)
            · have hx' : x ∈ expandCands g queryVector visited c0.1 :=
                (List.perm_insertionSort candDesc _).subset (List.mem_of_mem_take hx)
              exact expandCands_mem g queryVector visited c0.1 x hx'
          · intro x hx
            rcases List.mem_cons.mp hx with rfl | hx
            · exact hc x hc0
            · exact hr x hx

/-- Shared helper: on a non-empty index the beam search succeeds and its result
is at most k pairs, all drawn from the index, sorted by non-increasing
similarity. -/
lemma searchWithEf_ok (g : List IndexNode) (queryVector : List ℚ)
    (k efSearch : ℕ) (hg : g ≠ []) :
    ∃ L, searchWithEf g queryVector k efSearch = .ok L ∧ L.length ≤ k ∧
      (∀ c ∈ L, ∃ n ∈ g, n.id = c.1) ∧ L.Sorted candDesc := by
  obtain ⟨entry, t, rfl⟩ := List.exists_cons_of_ne_nil hg
  refine ⟨_, rfl, ?_, ?_, ?_⟩
  · rw [List.length_take]
    exact min_le_left _ _
  · intro c hc
    have hc1 : c ∈ sortCandDesc (searchLoop (entry :: t) queryVector k efSearch
        (((entry :: t).length + 1) * (efSearch + 1))
        [(entry.id, cosineSimVal queryVector entry.vector)] [] []) :=
      List.mem_of_mem_take hc
    have hc2 := (List.perm_insertionSort candDesc _).subset hc1
    refine searchLoop_mem (entry :: t) queryVector k efSearch _ _ _ _ ?_ ?_ c hc2
    · intro x hx
      rcases List.mem_cons.mp hx with rfl | hx
      · exact ⟨entry, List.mem_cons_self _ _, rfl⟩
      · simp at hx
    · intro x hx
      simp at hx
  · exact List.Pairwise.sublist (List.take_sublist _ _)
      (List.sorted_insertionSort candDesc _)

/-- C2: on a non-empty index, `searchWithEf` returns an ordered list of
(id, similarity) pairs of length at most k, in which every id is an entity
present in the corpus and the similarity values are non-increasing. -/
theorem searchWithEf_spec (g : List IndexNode) (queryVector : List ℚ)
    (k efSearch : ℕ) (hg : g ≠ []) :
    ∃ L, searchWithEf g queryVector k efSearch = .ok L ∧ L.length ≤ k ∧
      (∀ c ∈ L, ∃ n ∈ g, n.id = c.1) ∧ L.Sorted candDesc :=
  searchWithEf_ok g queryVector k efSearch hg

/-- C2, instantiated on a one-node index. -/
theorem searchWithEf_spec_witness :
    ∃ L, searchWithEf [node0] [1, 0, 0, 0, 0] 10 20 = .ok L ∧ L.length ≤ 10 ∧
      (∀ c ∈ L, ∃ n ∈ [node0], n.id = c.1) ∧ L.Sorted candDesc :=
  searchWithEf_spec [node0] [1, 0, 0, 0, 0] 10 20 (List.cons_ne_nil _ _)

lemma sweep_nil_sample (searchFn : SearchFn) (sample : ℕ → List ℕ)
    (lat : ℕ → ℕ → ℚ) (users : List User) (nq ci : ℕ) (cfg : TunerConfig)
    (rest : List (ℕ × TunerConfig)) (h : sample ci = []) :
    sweep searchFn sample lat users nq ((ci, cfg) :: rest) =
      .error .undefinedAccess := by
  rw [sweep, h]
  rfl

/-- C4 counterexample: on the empty corpus `runBenchmark` — with the
spec-modelled search over the index of that empty corpus, and the empty sample
that `sampleIndices(0, 0)` deterministically returns — fails, but with the
`TypeError` of reading `.toFixed` off the `undefined` p95 pick of an empty
latency array, not with a `BenchmarkUnavailable` error; no code path produces
`benchmarkUnavailable`. -/
theorem runBenchmark_empty_counterexample :
    runBenchmarkWith (fun q k ef => searchWithEf [] q k ef)
      (fun _ => []) (fun _ _ => 0) [] = .error .undefinedAccess ∧
    runBenchmarkWith (fun q k ef => searchWithEf [] q k ef)
      (fun _ => []) (fun _ _ => 0) [] ≠ .error .benchmarkUnavailable := by
  have h1 : runBenchmarkWith (fun q k ef => searchWithEf [] q k ef)
      (fun _ => []) (fun _ _ => 0) [] = .error .undefinedAccess := rfl
  refine ⟨h1, ?_⟩
  rw [h1]
  simp

/-- C4 (amended): on an empty corpus `runBenchmark` does fail and the failure
surfaces to the caller, but as the `TypeError` thrown when the p95 aggregation
indexes the empty latency array (`undefined.toFixed`), not as a
`BenchmarkUnavailable` error — the code never defines or raises one.  This
holds for every search function and latency oracle, with the empty per-config
sample that `sampleIndices(0, min(20, 0))` deterministically returns.
Emptiness of the corpus is also not the only failure condition: a throwing
search aborts the sweep too. -/
theorem runBenchmark_empty_amended (searchFn : SearchFn) (sample : ℕ → List ℕ)
    (lat : ℕ → ℕ → ℚ) (hs : ∀ i, sample i = []) :
    runBenchmarkWith searchFn sample lat [] = .error .undefinedAccess := by
  unfold runBenchmarkWith
  exact sweep_nil_sample searchFn sample lat [] _ 0 _ _ (hs 0)

/-- C4 amended, instantiated. -/
theorem runBenchmark_empty_amended_witness :
    runBenchmarkWith (fun _ _ _ => .ok []) (fun _ => []) (fun _ _ => 0) [] =
      .error .undefinedAccess :=
  runBenchmark_empty_amended (fun _ _ _ => .ok []) (fun _ => [])
    (fun _ _ => 0) (fun _ => rfl)

/-- C5 counterexample: with an approximate search that throws
(`DimensionMismatch`) during the measurement of the very first config on a
one-user corpus, `runBenchmark` aborts the whole sweep with that error — the
failing config is not recorded with recall 0 and worst-case latency, and no
result is produced for any of the remaining configs. -/
theorem runBenchmark_searchThrow_counterexample :
    runBenchmarkWith (fun _ _ _ => .error .dimensionMismatch)
      (fun _ => [0]) (fun _ _ => 1) [userA] =
      .error (.thrown .dimensionMismatch) ∧
    ∀ rows, runBenchmarkWith (fun _ _ _ => .error .dimensionMismatch)
      (fun _ => [0]) (fun _ _ => 1) [userA] ≠ .ok rows := by
  have h1 : runBenchmarkWith (fun _ _ _ => .error .dimensionMismatch)
      (fun _ => [0]) (fun _ _ => 1) [userA] =
      .error (.thrown .dimensionMismatch) := rfl
  refine ⟨h1, ?_⟩
  intro rows h
  rw [h1] at h
  exact Except.noConfusion h

lemma p95Pick_isSome (lats : List ℚ) (h1 : lats ≠ []) :
    ∃ v, p95Pick lats = some v := by
  have hlen : (sortAsc lats).length = lats.length := sortAsc_length lats
  have hpos : 0 < lats.length := List.length_pos.mpr h1
  unfold p95Pick
  dsimp only
  obtain ⟨v, hv⟩ : ∃ v,
      (sortAsc lats).get? (19 * (sortAsc lats).length / 20) = some v := by
    rw [List.get?_eq_get
      (by omega : 19 * (sortAsc lats).length / 20 < (sortAsc lats).length)]
    exact ⟨_, rfl⟩
  obtain ⟨w, hw⟩ : ∃ w,
      (sortAsc lats).get? ((sortAsc lats).length - 1) = some w := by
    rw [List.get?_eq_get
      (by omega : (sortAsc lats).length - 1 < (sortAsc lats).length)]
    exact ⟨_, rfl⟩
  simp only [hv]
  by_cases hz : v = 0
  · rw [if_pos hz]
    exact ⟨w, hw⟩
  · rw [if_neg hz]
    exact ⟨v, rfl⟩

lemma measureQueries_ok_of (searchFn : SearchFn) (users : List User) (ef : ℕ)
    (latO : ℕ → ℚ) :
    ∀ (idxs : List ℕ) (pos : ℕ),
      (∀ i ∈ idxs, ∃ u L, users.get? i = some u ∧
        searchFn u.vector 10 ef = .ok L) →
      ∃ p, measureQueries searchFn users ef latO idxs pos = .ok p ∧
        p.1.length = idxs.length := by
  intro idxs
  induction idxs with
  | nil =>
    intro pos _
    exact ⟨([], 0), rfl, rfl⟩
  | cons qIdx rest ih =>
    intro pos h
    obtain ⟨u, L, hu, hL⟩ := h qIdx (List.mem_cons_self _ _)
    obtain ⟨p, hrec, hlen⟩ := ih (pos + 1)
      (fun i hi => h i (List.mem_cons_of_mem _ hi))
    obtain ⟨lats, tr⟩ := p
    rw [measureQueries, hu]
    dsimp only
    rw [hL, hrec]
    exact ⟨_, rfl, by simpa using hlen⟩

lemma measureQueries_throw (searchFn : SearchFn) (users : List User) (ef : ℕ)
    (latO : ℕ → ℚ) (e : VectorStoreError) :
    ∀ (qdone : List ℕ) (qIdx : ℕ) (qrest : List ℕ) (pos : ℕ) (u : User),
      (∀ i ∈ qdone, ∃ u2 L, users.get? i = some u2 ∧
        searchFn u2.vector 10 ef = .ok L) →
      users.get? qIdx = some u →
      searchFn u.vector 10 ef = .error e →
      measureQueries searchFn users ef latO (qdone ++ qIdx :: qrest) pos =
        .error (.thrown e) := by
  intro qdone
  induction qdone with
  | nil =>
    intro qIdx qrest pos u _ hu hthrow
    rw [List.nil_append, measureQueries, hu]
    dsimp only
    rw [hthrow]
  | cons i done ih =>
    intro qIdx qrest pos u hok hu hthrow
    obtain ⟨u2, L, hu2, hL⟩ := hok i (List.mem_cons_self _ _)
    rw [List.cons_append, measureQueries, hu2]
    dsimp only
    rw [hL, ih qIdx qrest (pos + 1) u
      (fun j hj => hok j (List.mem_cons_of_mem _ hj)) hu hthrow]

lemma sweep_throw_at (searchFn : SearchFn) (sample : ℕ → List ℕ)
    (lat : ℕ → ℕ → ℚ) (users : List User) (nq : ℕ) (e : VectorStoreError) :
    ∀ (cfgsDone : List (ℕ × TunerConfig)) (ci : ℕ) (cfg : TunerConfig)
      (cfgsRest : List (ℕ × TunerConfig)),
      (∀ pc ∈ cfgsDone, ∃ p,
        measureQueries searchFn users pc.2.efSearch (lat pc.1) (sample pc.1) 0 =
          .ok p ∧ p.1 ≠ []) →
      measureQueries searchFn users cfg.efSearch (lat ci) (sample ci) 0 =
        .error (.thrown e) →
      sweep searchFn sample lat users nq (cfgsDone ++ (ci, cfg) :: cfgsRest) =
        .error (.thrown e) := by
  intro cfgsDone
  induction cfgsDone with
  | nil =>
    intro ci cfg cfgsRest _ hthrow
    rw [List.nil_append, sweep, hthrow]
  | cons pc done ih =>
    intro ci cfg cfgsRest hdone hthrow
    obtain ⟨cj, cfgj⟩ := pc
    obtain ⟨p, hp, hne⟩ := hdone (cj, cfgj) (List.mem_cons_self _ _)
    obtain ⟨lats, tr⟩ := p
    obtain ⟨v, hv⟩ := p95Pick_isSome lats hne
    rw [List.cons_append, sweep, hp]
    dsimp only
    rw [hv, ih ci cfg cfgsRest
      (fun pc2 hpc2 => hdone pc2 (List.mem_cons_of_mem _ hpc2)) hthrow]

/-- C5 (amended): if the approximate search throws during the measurement of
one config — at any position in the catalog and on any sampled query, the
measurements up to that point having completed — `runBenchmark` aborts the
whole sweep: the thrown error propagates to the caller, and no per-config
results are produced, neither for the failing config nor for any config before
or after it in the catalog. -/
theorem runBenchmark_abort_amended (searchFn : SearchFn) (sample : ℕ → List ℕ)
    (lat : ℕ → ℕ → ℚ) (users : List User) (e : VectorStoreError)
    (cfgsDone : List (ℕ × TunerConfig)) (ci : ℕ) (cfg : TunerConfig)
    (cfgsRest : List (ℕ × TunerConfig)) (qdone : List ℕ) (qIdx : ℕ)
    (qrest : List ℕ) (u : User)
    (hsplit : CONFIGS.enum = cfgsDone ++ (ci, cfg) :: cfgsRest)
    (hdone : ∀ pc ∈ cfgsDone, ∃ p,
      measureQueries searchFn users pc.2.efSearch (lat pc.1) (sample pc.1) 0 =
        .ok p ∧ p.1 ≠ [])
    (hquery : sample ci = qdone ++ qIdx :: qrest)
    (hqdone : ∀ i ∈ qdone, ∃ u2 L, users.get? i = some u2 ∧
      searchFn u2.vector 10 cfg.efSearch = .ok L)
    (hu : users.get? qIdx = some u)
    (hthrow : searchFn u.vector 10 cfg.efSearch = .error e) :
    runBenchmarkWith searchFn sample lat users = .error (.thrown e) := by
  unfold runBenchmarkWith
  rw [hsplit]
  refine sweep_throw_at searchFn sample lat users (min 20 users.length) e
    cfgsDone ci cfg cfgsRest hdone ?_
  rw [hquery]
  exact measureQueries_throw searchFn users cfg.efSearch (lat ci) e
    qdone qIdx qrest 0 u hqdone hu hthrow

/-- C5 amended, instantiated: the throw happens on the second sampled query of
the second catalog config, after the whole first config measured
successfully. -/
theorem runBenchmark_abort_amended_witness :
    runBenchmarkWith searchFnThrowB (fun _ => [0, 1]) (fun _ _ => 1)
      [userA, userB] = .error (.thrown .dimensionMismatch) := by
  refine runBenchmark_abort_amended searchFnThrowB (fun _ => [0, 1])
    (fun _ _ => 1) [userA, userB] .dimensionMismatch
    [(0, { M := 8, efConstruction := 100, efSearch := 20 })] 1
    { M := 8, efConstruction := 100, efSearch := 50 }
    [(2, { M := 16, efConstruction := 100, efSearch := 50 }),
     (3, { M := 16, efConstruction := 200, efSearch := 100 }),
     (4, { M := 32, efConstruction := 200, efSearch := 100 }),
     (5, { M := 32, efConstruction := 200, efSearch := 200 }),
     (6, { M := 32, efConstruction := 400, efSearch := 200 }),
     (7, { M := 48, efConstruction := 400, efSearch := 300 })]
    [0] 1 [] userB rfl ?_ rfl ?_ rfl rfl
  · intro pc hpc
    rw [List.mem_singleton] at hpc
    subst hpc
    have hper : ∀ i ∈ ([0, 1] : List ℕ), ∃ u2 L,
        ([userA, userB] : List User).get? i = some u2 ∧
        searchFnThrowB u2.vector 10 20 = .ok L := by
      intro i hi
      rcases List.mem_cons.mp hi with rfl | hi
      · exact ⟨userA, [], rfl, rfl⟩
      · rw [List.mem_singleton] at hi
        subst hi
        exact ⟨userB, [], rfl, rfl⟩
    obtain ⟨p, hp, hlen⟩ := measureQueries_ok_of searchFnThrowB [userA, userB]
      20 (fun _ => 1) [0, 1] 0 hper
    exact ⟨p, hp, List.ne_nil_of_length_pos (by rw [hlen]; decide)⟩
  · intro i hi
    rw [List.mem_singleton] at hi
    subst hi
    exact ⟨userA, [], rfl, rfl⟩

lemma round2_mono {a b : ℚ} (h : a ≤ b) : round2 a ≤ round2 b := by
  unfold round2
  have hr : round (a * 100) ≤ round (b * 100) := by
    rw [round_eq, round_eq]
    exact Int.floor_mono (by linarith)
  have hc : ((round (a * 100) : ℤ) : ℚ) ≤ ((round (b * 100) : ℤ) : ℚ) :=
    Int.cast_le.mpr hr
  exact (div_le_div_iff_of_pos_right (by norm_num : (0:ℚ) < 100)).mpr hc

lemma avg_le_p95Pick (lats : List ℚ) (h1 : lats ≠ []) (h20 : lats.length ≤ 20)
    (v : ℚ) (hv : p95Pick lats = some v) :
    lats.sum / (lats.length : ℚ) ≤ v := by
  rw [p95Pick_last lats h1 h20] at hv
  have hsorted : (sortAsc lats).Sorted (fun a b : ℚ => a ≤ b) :=
    List.sorted_insertionSort _ lats
  have hlen : (sortAsc lats).length = lats.length := sortAsc_length lats
  have hpos : 0 < lats.length := List.length_pos.mpr h1
  have hl : lats.length - 1 < (sortAsc lats).length := by omega
  have hvget : (sortAsc lats).get ⟨lats.length - 1, hl⟩ = v := by
    rw [List.get?_eq_get hl] at hv
    exact Option.some.inj hv
  have hmem_le : ∀ x ∈ lats, x ≤ v := by
    intro x hx
    have hx' : x ∈ sortAsc lats :=
      ((List.perm_insertionSort _ lats).mem_iff).mpr hx
    obtain ⟨⟨i, hi⟩, hgi⟩ := List.mem_iff_get.mp hx'
    have hle : (⟨i, hi⟩ : Fin (sortAsc lats).length) ≤ ⟨lats.length - 1, hl⟩ := by
      simp only [Fin.mk_le_mk]
      omega
    have := hsorted.rel_get_of_le hle
    rw [hgi, hvget] at this
    exact this
  have hsum := List.sum_le_card_nsmul lats v hmem_le
  rw [nsmul_eq_mul] at hsum
  have hlen0 : (0:ℚ) < (lats.length : ℚ) := by
    exact_mod_cast hpos
  rw [div_le_iff₀ hlen0]
  linarith

lemma measureQueries_ok (searchFn : SearchFn) (users : List User) (ef : ℕ)
    (latO : ℕ → ℚ)
    (hsearch : ∀ q k ef2, ∃ L, searchFn q k ef2 = .ok L) :
    ∀ (idxs : List ℕ) (pos : ℕ), (∀ i ∈ idxs, i < users.length) →
      ∃ p, measureQueries searchFn users ef latO idxs pos = .ok p ∧
        p.1.length = idxs.length := by
  intro idxs
  induction idxs with
  | nil =>
    intro pos _
    exact ⟨([], 0), rfl, rfl⟩
  | cons qIdx rest ih =>
    intro pos hlt
    obtain ⟨u, hu⟩ : ∃ u, users.get? qIdx = some u := by
      rw [List.get?_eq_get (hlt qIdx (List.mem_cons_self _ _))]
      exact ⟨_, rfl⟩
    obtain ⟨L, hL⟩ := hsearch u.vector 10 ef
    obtain ⟨p, hrec, hlen⟩ := ih (pos + 1)
      (fun i hi => hlt i (List.mem_cons_of_mem _ hi))
    obtain ⟨lats, tr⟩ := p
    rw [measureQueries, hu]
    dsimp only
    rw [hL, hrec]
    exact ⟨_, rfl, by simpa using hlen⟩

lemma sweep_ok (searchFn : SearchFn) (sample : ℕ → List ℕ) (lat : ℕ → ℕ → ℚ)
    (users : List User) (nq : ℕ)
    (hsearch : ∀ q k ef, ∃ L, searchFn q k ef = .ok L)
    (hnq1 : 1 ≤ nq) (hnq20 : nq ≤ 20) :
    ∀ cfgs : List (ℕ × TunerConfig),
      (∀ ci ∈ cfgs.map Prod.fst, (sample ci).length = nq ∧
        ∀ i ∈ sample ci, i < users.length) →
      ∃ rows, sweep searchFn sample lat users nq cfgs = .ok rows ∧
        rows.length = cfgs.length ∧
        ∀ r ∈ rows, r.avgLatencyMs ≤ r.p95LatencyMs := by
  intro cfgs
  induction cfgs with
  | nil =>
    intro _
    exact ⟨[], rfl, rfl, by simp⟩
  | cons hd rest ih =>
    intro hvalid
    obtain ⟨ci, cfg⟩ := hd
    obtain ⟨hlen, hbound⟩ := hvalid ci (by simp)
    obtain ⟨p, hp, hplen⟩ :=
      measureQueries_ok searchFn users cfg.efSearch (lat ci) hsearch (sample ci) 0 hbound
    obtain ⟨lats, tr⟩ := p
    have hlats1 : lats ≠ [] := by
      have : 0 < lats.length := by
        simp only at hplen
        omega
      exact List.ne_nil_of_length_pos this
    have hlats20 : lats.length ≤ 20 := by
      simp only at hplen
      omega
    obtain ⟨v, hv⟩ : ∃ v, p95Pick lats = some v := by
      rw [p95Pick_last lats hlats1 hlats20]
      have hl : lats.length - 1 < (sortAsc lats).length := by
        have := sortAsc_length lats
        have := List.length_pos.mpr hlats1
        omega
      rw [List.get?_eq_get hl]
      exact ⟨_, rfl⟩
    have havg : lats.sum / (lats.length : ℚ) ≤ v :=
      avg_le_p95Pick lats hlats1 hlats20 v hv
    obtain ⟨rows, hrows, hrlen, hrprop⟩ := ih (fun ci2 h2 => hvalid ci2 (by simp [h2]))
    rw [sweep, hp]
    dsimp only
    rw [hv, hrows]
    refine ⟨_, rfl, by simp [hrlen], ?_⟩
    intro r hr
    rcases List.mem_cons.mp hr with rfl | hr
    · exact round2_mono havg
    · exact hrprop r hr

/-- C7: on a non-empty corpus — searching the module's (non-empty) index with
the spec-modelled `searchWithEf`, with query samples as `sampleIndices` draws
them (`numQueries = min(20, corpus size)` valid indices per config) —
`runBenchmark` over the 8-entry reference catalog succeeds with exactly 8
`BenchmarkResult` entries, and every entry satisfies
`avgLatencyMs ≤ p95LatencyMs`. -/
theorem runBenchmark_catalog (users : List User) (g : List IndexNode)
    (sample : ℕ → List ℕ) (lat : ℕ → ℕ → ℚ)
    (husers : users ≠ []) (hg : g ≠ [])
    (hsample : ∀ ci, (sample ci).length = min 20 users.length ∧
      ∀ i ∈ sample ci, i < users.length) :
    ∃ rows,
      runBenchmarkWith (fun q k ef => searchWithEf g q k ef) sample lat users =
        .ok rows ∧
      rows.length = 8 ∧
      ∀ r ∈ rows, r.avgLatencyMs ≤ r.p95LatencyMs := by
  have hsearch : ∀ q k ef,
      ∃ L, (fun q k ef => searchWithEf g q k ef) q k ef = .ok L := by
    intro q k ef
    obtain ⟨L, hL, _⟩ := searchWithEf_ok g q k ef hg
    exact ⟨L, hL⟩
  have hnq1 : 1 ≤ min 20 users.length := by
    have := List.length_pos.mpr husers
    omega
  have hnq20 : min 20 users.length ≤ 20 := min_le_left _ _
  obtain ⟨rows, hrows, hlen, hprop⟩ :=
    sweep_ok (fun q k ef => searchWithEf g q k ef) sample lat users
      (min 20 users.length) hsearch hnq1 hnq20 CONFIGS.enum
      (fun ci _ => hsample ci)
  refine ⟨rows, hrows, ?_, hprop⟩
  rw [hlen]
  rfl

/-- C7, instantiated on a one-user corpus and one-node index. -/
theorem runBenchmark_catalog_witness :
    ∃ rows,
      runBenchmarkWith (fun q k ef => searchWithEf [node0] q k ef)
        (fun _ => [0]) (fun _ _ => 1) [userA] = .ok rows ∧
      rows.length = 8 ∧
      ∀ r ∈ rows, r.avgLatencyMs ≤ r.p95LatencyMs :=
  runBenchmark_catalog [userA] [node0] (fun _ => [0]) (fun _ _ => 1)
    (List.cons_ne_nil _ _) (List.cons_ne_nil _ _)
    (fun _ => ⟨rfl, fun i hi => by
      rw [List.mem_singleton] at hi
      subst hi
      decide⟩)

/-- C3, instantiated on a two-user corpus with entry 0 excluded. -/
theorem getExactNeighbors_spec_witness :
    getExactNeighbors [1, 0, 0, 0, 0] [userA, userB] 10 0 =
      ((exactSorted [1, 0, 0, 0, 0] [userA, userB] 0).take 10).map SimEntry.id ∧
    (exactSorted [1, 0, 0, 0, 0] [userA, userB] 0).Sorted simDesc ∧
    (exactSorted [1, 0, 0, 0, 0] [userA, userB] 0).Perm
      (exactCandidates [1, 0, 0, 0, 0] [userA, userB] 0) ∧
    (getExactNeighbors [1, 0, 0, 0, 0] [userA, userB] 10 0).length =
      min 10 (exactCandidates [1, 0, 0, 0, 0] [userA, userB] 0).length ∧
    (∀ x ∈ (exactSorted [1, 0, 0, 0, 0] [userA, userB] 0).take 10,
      ∀ y ∈ (exactSorted [1, 0, 0, 0, 0] [userA, userB] 0).drop 10, simDesc x y) ∧
    (∀ nid ∈ getExactNeighbors [1, 0, 0, 0, 0] [userA, userB] 10 0,
      ∃ u0 ∈ [userA, userB], u0.id = nid) :=
  getExactNeighbors_spec [1, 0, 0, 0, 0] [userA, userB] 10 0
